import Mathlib

/-!
Verification development for the GlassPass password generator
(src/js/app.js).  The password-generation core is shallowly embedded:
strings become `List Char`, the JavaScript random source
(`Math.floor(Math.random() * n)`) becomes an explicit finite stream of
pre-drawn natural numbers consumed one at a time, reduced modulo `n`,
and fallible code returns `Except`.
-/

namespace GlassPass

/-- Model of the shared random source: a finite prefix of pre-drawn
natural numbers.  `Math.floor(Math.random() * n)` consumes one value `v`
and yields `v % n`, which ranges over the whole of `[0, n)` when `n > 0`,
exactly the range of the JavaScript expression. -/
abbrev Rand : Type := List Nat

/-- One draw of `Math.floor(Math.random() * n)` from the stream. -/
def randInt (n : Nat) (r : Rand) : Nat × Rand :=
  match r with
  | [] => (0, [])
  | v :: rest => (v % n, rest)

namespace CHAR_SETS

/-- The constant `CHAR_SETS.lowercase` from src/js/app.js line 11. -/
def lowercase : List Char := "abcdefghijklmnopqrstuvwxyz".toList

/-- The constant `CHAR_SETS.uppercase` from src/js/app.js line 12. -/
def uppercase : List Char := "ABCDEFGHIJKLMNOPQRSTUVWXYZ".toList

/-- The constant `CHAR_SETS.numbers` from src/js/app.js line 13. -/
def numbers : List Char := "0123456789".toList

/-- The constant `CHAR_SETS.symbols` from src/js/app.js line 14
(the two brace characters are written with hex escapes). -/
def symbols : List Char := "!@#$%^&*()_+-=[]\x7b\x7d|;:,.<>?".toList

end CHAR_SETS

/-- The function `getRandomChar` (src/js/app.js lines 103-105):
`chars.charAt(Math.floor(Math.random() * chars.length))`.
The default `' '` is unreachable at every call site (all call sites pass
non-empty strings). -/
def getRandomChar (chars : List Char) (r : Rand) : Char × Rand :=
  let d := randInt chars.length r
  (chars.getD d.1 ' ', d.2)

/-- The `passwordSettings` object destructured by
`generateSecurePassword` (src/js/app.js lines 40-46, 57). -/
structure PasswordSettings where
  length : Nat
  includeUppercase : Bool
  includeLowercase : Bool
  includeNumbers : Bool
  includeSymbols : Bool
deriving DecidableEq, Repr

/-- One `if (includeX) { availableChars += CHAR_SETS.x;
guaranteedChars.push(getRandomChar(CHAR_SETS.x)); }` block of
`generateSecurePassword` (src/js/app.js lines 63-81), acting on the
accumulated `(availableChars, guaranteedChars, random stream)`. -/
def addClass (flag : Bool) (cs : List Char) (acc : List Char × List Char × Rand) :
    List Char × List Char × Rand :=
  if flag then
    let g := getRandomChar cs acc.2.2
    (acc.1 ++ cs, acc.2.1 ++ [g.1], g.2)
  else acc

/-- The four class blocks of `generateSecurePassword`
(src/js/app.js lines 60-81), applied in source order:
lowercase, uppercase, numbers, symbols. -/
def buildPools (cfg : PasswordSettings) (r : Rand) : List Char × List Char × Rand :=
  addClass cfg.includeSymbols CHAR_SETS.symbols
    (addClass cfg.includeNumbers CHAR_SETS.numbers
      (addClass cfg.includeUppercase CHAR_SETS.uppercase
        (addClass cfg.includeLowercase CHAR_SETS.lowercase ([], [], r))))

/-- The fill step `Array.from({ length: n }, () => getRandomChar(availableChars))`
(src/js/app.js line 91): `n` successive draws, left to right. -/
def drawN : Nat → List Char → Rand → List Char × Rand
  | 0, _, r => ([], r)
  | n + 1, cs, r =>
    let d := getRandomChar cs r
    let rest := drawN n cs d.2
    (d.1 :: rest.1, rest.2)

/-- The destructuring swap
`[shuffled[i], shuffled[j]] = [shuffled[j], shuffled[i]]`
(src/js/app.js line 116): both right-hand values are read first, then
both positions are written. -/
def swapList (a : List Char) (i j : Nat) : List Char :=
  (a.set i (a.getD j ' ')).set j (a.getD i ' ')

/-- The loop of `shuffleArray` (src/js/app.js lines 114-117):
`for (let i = shuffled.length - 1; i > 0; i--)` with
`j = Math.floor(Math.random() * (i + 1))`.  The fuel argument is the
current loop index `i`; the loop stops when `i = 0`. -/
def fyLoop : Nat → List Char → Rand → List Char × Rand
  | 0, a, r => (a, r)
  | k + 1, a, r =>
    let d := randInt (k + 1 + 1) r
    fyLoop k (swapList a (k + 1) d.1) d.2

/-- The function `shuffleArray` (src/js/app.js lines 112-119): copy the input, then
run the Fisher-Yates loop from index `length - 1` down to `1`. -/
def shuffleArray (array : List Char) (r : Rand) : List Char × Rand :=
  fyLoop (array.length - 1) array r

/-- The function `generateSecurePassword` (src/js/app.js lines 56-96).  The result
pairs the outcome with the final random stream, so that random-source
consumption is observable.  `cfg.length - guaranteedChars.length` uses
truncated natural subtraction, which matches JavaScript:
`Array.from({ length: n })` clamps a negative `n` to `0`. -/
def generateSecurePassword (cfg : PasswordSettings) (r0 : Rand) :
    Except String (List Char) × Rand :=
  let bp := buildPools cfg r0
  let availableChars := bp.1
  let guaranteedChars := bp.2.1
  let r1 := bp.2.2
  if availableChars.length = 0 then
    (Except.error "Debe seleccionar al menos un tipo de carácter", r1)
  else
    let remainingLength := cfg.length - guaranteedChars.length
    let fill := drawN remainingLength availableChars r1
    let password := guaranteedChars ++ fill.1
    let shuffled := shuffleArray password fill.2
    (Except.ok shuffled.1, shuffled.2)

/-- The password array as it stands just before the `shuffleArray` call
(src/js/app.js lines 90-92): guaranteed characters followed by the
random fill. -/
def preShufflePassword (cfg : PasswordSettings) (r0 : Rand) : List Char :=
  let bp := buildPools cfg r0
  bp.2.1 ++ (drawN (cfg.length - bp.2.1.length) bp.1 bp.2.2).1

/-- The random stream as it stands just before the `shuffleArray` call
of `generateSecurePassword`: after the guaranteed draws and the fill
draws. -/
def fillRand (cfg : PasswordSettings) (r0 : Rand) : Rand :=
  let bp := buildPools cfg r0
  (drawN (cfg.length - bp.2.1.length) bp.1 bp.2.2).2

/-- Whether at least one character class is enabled (the condition of
`validateSettings`, src/js/app.js lines 138-141). -/
def anyEnabled (cfg : PasswordSettings) : Bool :=
  cfg.includeUppercase || cfg.includeLowercase || cfg.includeNumbers || cfg.includeSymbols

/-- The number of enabled character classes. -/
def enabledCount (cfg : PasswordSettings) : Nat :=
  (if cfg.includeLowercase then 1 else 0) + (if cfg.includeUppercase then 1 else 0)
    + (if cfg.includeNumbers then 1 else 0) + (if cfg.includeSymbols then 1 else 0)

/-- The available pool as the spec describes it: the concatenation of
the enabled class strings in the canonical order lowercase, uppercase,
numbers, symbols. -/
def canonicalPool (cfg : PasswordSettings) : List Char :=
  (if cfg.includeLowercase then CHAR_SETS.lowercase else [])
    ++ ((if cfg.includeUppercase then CHAR_SETS.uppercase else [])
      ++ ((if cfg.includeNumbers then CHAR_SETS.numbers else [])
        ++ (if cfg.includeSymbols then CHAR_SETS.symbols else [])))

/-- One step of the spec's Fisher-Yates description: at index `i`, swap
position `i` with a uniformly chosen index in `[0, i]` (modelled as a
stream draw reduced modulo `i + 1`). -/
def fisherYatesSpecStep (st : List Char × Rand) (i : Nat) : List Char × Rand :=
  let d := randInt (i + 1) st.2
  (swapList st.1 i d.1, d.2)

/-- The spec's Fisher-Yates description (spec section 4.1 step 5):
iterate the index `i` from the last position down to `1`, swapping each
time with a random index in `[0, i]`. -/
def fisherYatesSpec (a : List Char) (r : Rand) : List Char × Rand :=
  (((List.range a.length).reverse).filter (fun i => 1 ≤ i)).foldl fisherYatesSpecStep (a, r)

/-- The record returned by `evaluatePasswordStrength`
(src/js/app.js line 457). -/
structure StrengthReport where
  strength : String
  score : Nat
  feedback : List String
deriving DecidableEq, Repr

/-- The test `/[a-z]/.test(c)` on a single character (ASCII range). -/
def isLowerAscii (c : Char) : Bool := decide ('a' ≤ c) && decide (c ≤ 'z')

/-- The test `/[A-Z]/.test(c)` on a single character (ASCII range). -/
def isUpperAscii (c : Char) : Bool := decide ('A' ≤ c) && decide (c ≤ 'Z')

/-- The test `/[0-9]/.test(c)` on a single character. -/
def isDigitAscii (c : Char) : Bool := decide ('0' ≤ c) && decide (c ≤ '9')

/-- The test `/[^a-zA-Z0-9]/.test(c)` on a single character. -/
def isNonAlnumAscii (c : Char) : Bool :=
  !(isLowerAscii c || isUpperAscii c || isDigitAscii c)

/-- The function `evaluatePasswordStrength` (src/js/app.js lines 435-458).  A regex
test `/[x]/.test(password)` is membership of some character of the
password in the class, i.e. `List.any`. -/
def evaluatePasswordStrength (password : List Char) : StrengthReport :=
  let base : Nat × List String :=
    if 12 ≤ password.length then (2, [])
    else if 8 ≤ password.length then (1, [])
    else (0, ["Usar al menos 8 caracteres"])
  let score := base.1
    + (if password.any isLowerAscii then 1 else 0)
    + (if password.any isUpperAscii then 1 else 0)
    + (if password.any isDigitAscii then 1 else 0)
    + (if password.any isNonAlnumAscii then 1 else 0)
  let strength :=
    if 6 ≤ score then "Muy fuerte"
    else if 4 ≤ score then "Fuerte"
    else if 2 ≤ score then "Media"
    else "Débil"
  { strength := strength, score := score, feedback := base.2 }

/-- The spec's label mapping (spec section 4.2): score ≥ 6 → very
strong, ≥ 4 → strong, ≥ 2 → medium, else weak; the labels are the
source's literal strings. -/
def strengthLabelSpec (score : Nat) : String :=
  if 6 ≤ score then "Muy fuerte"
  else if 4 ≤ score then "Fuerte"
  else if 2 ≤ score then "Media"
  else "Débil"

/-- A minimal JavaScript heap for array aliasing: array objects live at
natural-number handles. -/
structure JSHeap where
  arrays : List (List Char)
deriving Repr

/-- Reading the array object at a handle. -/
def heapGet (h : JSHeap) (i : Nat) : List Char := h.arrays.getD i []

/-- Overwriting the array object at a handle. -/
def heapSet (h : JSHeap) (i : Nat) (v : List Char) : JSHeap := ⟨h.arrays.set i v⟩

/-- The loop of `shuffleArray` acting on the heap: every read and every
write of the loop body (src/js/app.js lines 114-117) targets the
`shuffled` handle only. -/
def shuffleArrayHeapLoop : Nat → JSHeap → Nat → Rand → JSHeap × Rand
  | 0, h, _, r => (h, r)
  | k + 1, h, handle, r =>
    let d := randInt (k + 1 + 1) r
    shuffleArrayHeapLoop k (heapSet h handle (swapList (heapGet h handle) (k + 1) d.1)) handle d.2

/-- The function `shuffleArray` on the heap (src/js/app.js lines 112-119):
`const shuffled = [...array]` allocates a fresh array object holding a
copy of the argument, the loop mutates only that copy, and the function
returns the copy's handle. -/
def shuffleArrayHeap (h : JSHeap) (arg : Nat) (r : Rand) : JSHeap × Nat × Rand :=
  let fresh := h.arrays.length
  let h1 : JSHeap := ⟨h.arrays ++ [heapGet h arg]⟩
  let res := shuffleArrayHeapLoop ((heapGet h1 fresh).length - 1) h1 fresh r
  (res.1, fresh, res.2)

/-- A configuration with two classes enabled but length 1
(counterexample input for the length claims). -/
def cfgLenOne : PasswordSettings :=
  { length := 1, includeUppercase := true, includeLowercase := true,
    includeNumbers := false, includeSymbols := false }

/-- A configuration with numbers and symbols enabled but length 1
(counterexample input for the overflow claim). -/
def cfgNumSym : PasswordSettings :=
  { length := 1, includeUppercase := false, includeLowercase := false,
    includeNumbers := true, includeSymbols := true }

/-- A configuration with every class disabled. -/
def cfgNone : PasswordSettings :=
  { length := 8, includeUppercase := false, includeLowercase := false,
    includeNumbers := false, includeSymbols := false }

/-- A configuration with every class enabled and length 12. -/
def cfgAll12 : PasswordSettings :=
  { length := 12, includeUppercase := true, includeLowercase := true,
    includeNumbers := true, includeSymbols := true }

/-- A configuration with every class enabled and length 8. -/
def cfgAll8 : PasswordSettings :=
  { length := 8, includeUppercase := true, includeLowercase := true,
    includeNumbers := true, includeSymbols := true }

/-! Helper lemmas about the random source and character draws. -/

theorem randInt_lt (n : Nat) (r : Rand) (h : 0 < n) : (randInt n r).1 < n := by
  cases r with
  | nil => simpa [randInt] using h
  | cons v rest => simpa [randInt] using Nat.mod_lt v h

theorem getRandomChar_mem (chars : List Char) (r : Rand) (h : chars ≠ []) :
    (getRandomChar chars r).1 ∈ chars := by
  have hl : 0 < chars.length := List.length_pos.mpr h
  have hlt := randInt_lt chars.length r hl
  show chars.getD (randInt chars.length r).1 ' ' ∈ chars
  rw [List.getD_eq_getElem _ _ hlt]
  exact List.getElem_mem hlt

theorem drawN_length (n : Nat) (cs : List Char) (r : Rand) :
    (drawN n cs r).1.length = n := by
  induction n generalizing r with
  | zero => simp [drawN]
  | succ m ih => simp [drawN, ih]

theorem drawN_mem (n : Nat) (cs : List Char) (r : Rand) (h : cs ≠ []) :
    ∀ x ∈ (drawN n cs r).1, x ∈ cs := by
  induction n generalizing r with
  | zero => simp [drawN]
  | succ m ih =>
    intro x hx
    simp only [drawN, List.mem_cons] at hx
    rcases hx with hx | hx
    · exact hx ▸ getRandomChar_mem cs r h
    · exact ih _ x hx

/-! Helper lemmas about the class-accumulation blocks. -/

theorem addClass_avail (f : Bool) (cs : List Char) (acc : List Char × List Char × Rand) :
    (addClass f cs acc).1 = acc.1 ++ (if f then cs else []) := by
  cases f <;> simp [addClass]

theorem addClass_guar (f : Bool) (cs : List Char) (acc : List Char × List Char × Rand) :
    (addClass f cs acc).2.1
      = acc.2.1 ++ (if f then [(getRandomChar cs acc.2.2).1] else []) := by
  cases f <;> simp [addClass]

theorem addClass_guar_mono (f : Bool) (cs : List Char) (acc : List Char × List Char × Rand)
    (x : Char) (hx : x ∈ acc.2.1) : x ∈ (addClass f cs acc).2.1 := by
  rw [addClass_guar]
  exact List.mem_append_left _ hx

theorem addClass_guar_self (f : Bool) (cs : List Char) (acc : List Char × List Char × Rand)
    (hf : f = true) (h : cs ≠ []) :
    ∃ x, x ∈ cs ∧ x ∈ (addClass f cs acc).2.1 := by
  refine ⟨(getRandomChar cs acc.2.2).1, getRandomChar_mem cs acc.2.2 h, ?_⟩
  rw [addClass_guar, hf]
  simp

theorem addClass_sub (f : Bool) (cs : List Char) (acc : List Char × List Char × Rand)
    (h : cs ≠ []) (hsub : ∀ x ∈ acc.2.1, x ∈ acc.1) :
    ∀ x ∈ (addClass f cs acc).2.1, x ∈ (addClass f cs acc).1 := by
  intro x hx
  rw [addClass_guar] at hx
  rw [addClass_avail]
  rcases List.mem_append.mp hx with hx | hx
  · exact List.mem_append_left _ (hsub x hx)
  · cases f with
    | false => simp at hx
    | true =>
      simp only [if_true] at hx ⊢
      rcases List.mem_cons.mp hx with hx | hx
      · exact List.mem_append_right _ (hx ▸ getRandomChar_mem cs acc.2.2 h)
      · simp at hx

theorem lowercase_ne_nil : CHAR_SETS.lowercase ≠ [] := by decide

theorem uppercase_ne_nil : CHAR_SETS.uppercase ≠ [] := by decide

theorem numbers_ne_nil : CHAR_SETS.numbers ≠ [] := by decide

theorem symbols_ne_nil : CHAR_SETS.symbols ≠ [] := by decide

/-! Helper lemmas about `buildPools`. -/

theorem buildPools_avail (cfg : PasswordSettings) (r : Rand) :
    (buildPools cfg r).1 = canonicalPool cfg := by
  simp [buildPools, addClass_avail, canonicalPool, List.append_assoc]

theorem buildPools_guar_length (cfg : PasswordSettings) (r : Rand) :
    (buildPools cfg r).2.1.length = enabledCount cfg := by
  simp only [buildPools, addClass_guar, List.length_append, enabledCount]
  cases cfg.includeLowercase <;> cases cfg.includeUppercase <;>
    cases cfg.includeNumbers <;> cases cfg.includeSymbols <;> simp

theorem buildPools_lower_mem (cfg : PasswordSettings) (r : Rand)
    (h : cfg.includeLowercase = true) :
    ∃ x, x ∈ CHAR_SETS.lowercase ∧ x ∈ (buildPools cfg r).2.1 := by
  obtain ⟨x, hx, hmem⟩ :=
    addClass_guar_self cfg.includeLowercase CHAR_SETS.lowercase ([], [], r) h lowercase_ne_nil
  exact ⟨x, hx, addClass_guar_mono _ _ _ x (addClass_guar_mono _ _ _ x
    (addClass_guar_mono _ _ _ x hmem))⟩

theorem buildPools_upper_mem (cfg : PasswordSettings) (r : Rand)
    (h : cfg.includeUppercase = true) :
    ∃ x, x ∈ CHAR_SETS.uppercase ∧ x ∈ (buildPools cfg r).2.1 := by
  obtain ⟨x, hx, hmem⟩ := addClass_guar_self cfg.includeUppercase CHAR_SETS.uppercase
    (addClass cfg.includeLowercase CHAR_SETS.lowercase ([], [], r)) h uppercase_ne_nil
  exact ⟨x, hx, addClass_guar_mono _ _ _ x (addClass_guar_mono _ _ _ x hmem)⟩

theorem buildPools_numbers_mem (cfg : PasswordSettings) (r : Rand)
    (h : cfg.includeNumbers = true) :
    ∃ x, x ∈ CHAR_SETS.numbers ∧ x ∈ (buildPools cfg r).2.1 := by
  obtain ⟨x, hx, hmem⟩ := addClass_guar_self cfg.includeNumbers CHAR_SETS.numbers
    (addClass cfg.includeUppercase CHAR_SETS.uppercase
      (addClass cfg.includeLowercase CHAR_SETS.lowercase ([], [], r))) h numbers_ne_nil
  exact ⟨x, hx, addClass_guar_mono _ _ _ x hmem⟩

theorem buildPools_symbols_mem (cfg : PasswordSettings) (r : Rand)
    (h : cfg.includeSymbols = true) :
    ∃ x, x ∈ CHAR_SETS.symbols ∧ x ∈ (buildPools cfg r).2.1 := by
  exact addClass_guar_self cfg.includeSymbols CHAR_SETS.symbols
    (addClass cfg.includeNumbers CHAR_SETS.numbers
      (addClass cfg.includeUppercase CHAR_SETS.uppercase
        (addClass cfg.includeLowercase CHAR_SETS.lowercase ([], [], r)))) h symbols_ne_nil

theorem buildPools_guar_sub_avail (cfg : PasswordSettings) (r : Rand) :
    ∀ x ∈ (buildPools cfg r).2.1, x ∈ (buildPools cfg r).1 := by
  refine addClass_sub _ _ _ symbols_ne_nil ?_
  refine addClass_sub _ _ _ numbers_ne_nil ?_
  refine addClass_sub _ _ _ uppercase_ne_nil ?_
  refine addClass_sub _ _ _ lowercase_ne_nil ?_
  intro x hx
  simp at hx

/-! Permutation lemmas for the Fisher-Yates shuffle. -/

theorem getD_cons_set_perm (t : List Char) :
    ∀ (m : Nat) (b : Char), m < t.length → (t.getD m ' ' :: t.set m b).Perm (b :: t) := by
  induction t with
  | nil => intro m b hm; simp at hm
  | cons c s ih =>
    intro m b hm
    cases m with
    | zero =>
      simp only [List.getD_cons_zero, List.set_cons_zero]
      exact List.Perm.swap b c s
    | succ m =>
      simp only [List.getD_cons_succ, List.set_cons_succ]
      have hms : m < s.length := by simpa using hm
      exact (List.Perm.swap c (s.getD m ' ') (s.set m b)).trans
        ((List.Perm.cons c (ih m b hms)).trans (List.Perm.swap b c s))

theorem swapList_perm (a : List Char) :
    ∀ (i j : Nat), i < a.length → j < a.length → (swapList a i j).Perm a := by
  induction a with
  | nil => intro i j hi _; simp at hi
  | cons c t ih =>
    intro i j hi hj
    cases i with
    | zero =>
      cases j with
      | zero =>
        simp [swapList]
      | succ m =>
        have hmt : m < t.length := by simpa using hj
        simp only [swapList, List.getD_cons_succ, List.getD_cons_zero,
          List.set_cons_zero, List.set_cons_succ]
        exact getD_cons_set_perm t m c hmt
    | succ n =>
      cases j with
      | zero =>
        have hnt : n < t.length := by simpa using hi
        simp only [swapList, List.getD_cons_succ, List.getD_cons_zero,
          List.set_cons_zero, List.set_cons_succ]
        exact getD_cons_set_perm t n c hnt
      | succ m =>
        have hnt : n < t.length := by simpa using hi
        have hmt : m < t.length := by simpa using hj
        simp only [swapList, List.getD_cons_succ, List.set_cons_succ]
        exact List.Perm.cons c (ih n m hnt hmt)

theorem swapList_length (a : List Char) (i j : Nat) :
    (swapList a i j).length = a.length := by
  simp [swapList]

theorem fyLoop_perm (k : Nat) :
    ∀ (a : List Char) (r : Rand), k < a.length → ((fyLoop k a r).1).Perm a := by
  induction k with
  | zero => intro a r _; simp [fyLoop]
  | succ m ih =>
    intro a r hk
    have hj : (randInt (m + 1 + 1) r).1 < m + 1 + 1 := randInt_lt _ r (Nat.succ_pos _)
    have hi : m + 1 < a.length := hk
    have hjlt : (randInt (m + 1 + 1) r).1 < a.length := Nat.lt_of_lt_of_le hj hi
    have hswap := swapList_perm a (m + 1) (randInt (m + 1 + 1) r).1 hi hjlt
    have hlen : m < (swapList a (m + 1) (randInt (m + 1 + 1) r).1).length := by
      rw [swapList_length]; omega
    have hrec := ih (swapList a (m + 1) (randInt (m + 1 + 1) r).1) (randInt (m + 1 + 1) r).2 hlen
    exact List.Perm.trans hrec hswap

theorem shuffleArray_perm (a : List Char) (r : Rand) : ((shuffleArray a r).1).Perm a := by
  cases a with
  | nil => simp [shuffleArray, fyLoop]
  | cons c t =>
    have h : (c :: t).length - 1 < (c :: t).length := by simp
    exact fyLoop_perm ((c :: t).length - 1) (c :: t) r h

theorem shuffleArray_length (a : List Char) (r : Rand) :
    ((shuffleArray a r).1).length = a.length :=
  (shuffleArray_perm a r).length_eq

/-! Structural lemmas about `generateSecurePassword`. -/

theorem lowercase_length : CHAR_SETS.lowercase.length = 26 := by decide

theorem uppercase_length : CHAR_SETS.uppercase.length = 26 := by decide

theorem numbers_length : CHAR_SETS.numbers.length = 10 := by decide

theorem symbols_length : CHAR_SETS.symbols.length = 26 := by decide

theorem avail_length_pos (cfg : PasswordSettings) (r : Rand) (h : anyEnabled cfg = true) :
    0 < (buildPools cfg r).1.length := by
  rw [buildPools_avail]
  simp only [canonicalPool, List.length_append, lowercase_length, uppercase_length,
    numbers_length, symbols_length, apply_ite List.length, List.length_nil]
  simp only [anyEnabled, Bool.or_eq_true] at h
  rcases h with ((h | h) | h) | h <;> simp [h]

theorem buildPools_none (cfg : PasswordSettings) (r : Rand) (h : anyEnabled cfg = false) :
    buildPools cfg r = ([], [], r) := by
  simp only [anyEnabled, Bool.or_eq_false_iff] at h
  obtain ⟨⟨⟨hU, hL⟩, hN⟩, hS⟩ := h
  simp [buildPools, addClass, hU, hL, hN, hS]

theorem generate_none (cfg : PasswordSettings) (r : Rand) (h : anyEnabled cfg = false) :
    generateSecurePassword cfg r
      = (Except.error "Debe seleccionar al menos un tipo de carácter", r) := by
  unfold generateSecurePassword
  rw [buildPools_none cfg r h]
  simp

theorem generate_eq (cfg : PasswordSettings) (r : Rand) (h : anyEnabled cfg = true) :
    generateSecurePassword cfg r
      = (Except.ok (shuffleArray (preShufflePassword cfg r) (fillRand cfg r)).1,
          (shuffleArray (preShufflePassword cfg r) (fillRand cfg r)).2) := by
  have hpos := avail_length_pos cfg r h
  unfold generateSecurePassword preShufflePassword fillRand
  rw [if_neg (by omega)]

theorem preShuffle_length (cfg : PasswordSettings) (r : Rand) :
    (preShufflePassword cfg r).length = max cfg.length (enabledCount cfg) := by
  unfold preShufflePassword
  rw [List.length_append, drawN_length, buildPools_guar_length]
  omega

theorem generate_length (cfg : PasswordSettings) (r : Rand) (h : anyEnabled cfg = true) :
    ∃ out, (generateSecurePassword cfg r).1 = Except.ok out
      ∧ out.length = max cfg.length (enabledCount cfg) := by
  refine ⟨(shuffleArray (preShufflePassword cfg r) (fillRand cfg r)).1, ?_, ?_⟩
  · rw [generate_eq cfg r h]
  · rw [shuffleArray_length, preShuffle_length]

theorem generate_perm (cfg : PasswordSettings) (r : Rand) (h : anyEnabled cfg = true) :
    ∃ out, (generateSecurePassword cfg r).1 = Except.ok out
      ∧ out.Perm (preShufflePassword cfg r) := by
  refine ⟨(shuffleArray (preShufflePassword cfg r) (fillRand cfg r)).1, ?_, ?_⟩
  · rw [generate_eq cfg r h]
  · exact shuffleArray_perm _ _

theorem preShuffle_mem_guar (cfg : PasswordSettings) (r : Rand) (x : Char)
    (hx : x ∈ (buildPools cfg r).2.1) : x ∈ preShufflePassword cfg r := by
  unfold preShufflePassword
  exact List.mem_append_left _ hx

theorem preShuffle_sub_pool (cfg : PasswordSettings) (r : Rand) (h : anyEnabled cfg = true) :
    ∀ x ∈ preShufflePassword cfg r, x ∈ canonicalPool cfg := by
  intro x hx
  have hne : (buildPools cfg r).1 ≠ [] := by
    have := avail_length_pos cfg r h
    exact fun hnil => by simp [hnil] at this
  unfold preShufflePassword at hx
  rcases List.mem_append.mp hx with hx | hx
  · exact (buildPools_avail cfg r) ▸ buildPools_guar_sub_avail cfg r x hx
  · exact (buildPools_avail cfg r) ▸ drawN_mem _ _ _ hne x hx

/-! Equivalence of the source shuffle with the spec's Fisher-Yates
description. -/

theorem descList_succ (k : Nat) :
    ((List.range (k + 2)).reverse).filter (fun i => 1 ≤ i)
      = (k + 1) :: ((List.range (k + 1)).reverse).filter (fun i => 1 ≤ i) := by
  rw [List.range_succ, List.reverse_append]
  simp [List.filter_cons]

theorem fyLoop_eq_foldl (k : Nat) :
    ∀ (a : List Char) (r : Rand),
      fyLoop k a r
        = (((List.range (k + 1)).reverse).filter (fun i => 1 ≤ i)).foldl
            fisherYatesSpecStep (a, r) := by
  induction k with
  | zero =>
    intro a r
    simp [fyLoop, List.range_succ]
  | succ m ih =>
    intro a r
    rw [descList_succ m, List.foldl_cons]
    show fyLoop (m + 1) a r
      = (((List.range (m + 1)).reverse).filter (fun i => 1 ≤ i)).foldl
          fisherYatesSpecStep (fisherYatesSpecStep (a, r) (m + 1))
    rw [← ih]
    rfl

theorem shuffleArray_eq_fisherYatesSpec (a : List Char) (r : Rand) :
    shuffleArray a r = fisherYatesSpec a r := by
  cases a with
  | nil => rfl
  | cons c t =>
    show fyLoop ((c :: t).length - 1) (c :: t) r = fisherYatesSpec (c :: t) r
    rw [fyLoop_eq_foldl]
    rfl

/-! Frame lemmas for the heap model of `shuffleArray`. -/

theorem getD_set_ne (l : List (List Char)) (i j : Nat) (v : List Char) (h : i ≠ j) :
    (l.set i v).getD j [] = l.getD j [] := by
  rw [List.getD_eq_getElem?_getD, List.getD_eq_getElem?_getD, List.getElem?_set_ne h]

theorem heapLoop_frame (k : Nat) :
    ∀ (h : JSHeap) (hd : Nat) (r : Rand) (j : Nat), j ≠ hd →
      heapGet (shuffleArrayHeapLoop k h hd r).1 j = heapGet h j := by
  induction k with
  | zero => intro h hd r j _; rfl
  | succ m ih =>
    intro h hd r j hj
    show heapGet (shuffleArrayHeapLoop m
      (heapSet h hd (swapList (heapGet h hd) (m + 1) (randInt (m + 1 + 1) r).1)) hd
      (randInt (m + 1 + 1) r).2).1 j = heapGet h j
    rw [ih _ hd _ j hj]
    exact getD_set_ne h.arrays hd j _ (fun e => hj e.symm)

theorem heapGet_snoc (h : JSHeap) (x : List Char) (j : Nat) (hj : j < h.arrays.length) :
    heapGet ⟨h.arrays ++ [x]⟩ j = heapGet h j :=
  List.getD_append h.arrays [x] [] j hj

/-! Decidable facts about the character classes. -/

theorem lower_isLower : ∀ c ∈ CHAR_SETS.lowercase, isLowerAscii c = true := by decide

theorem upper_isUpper : ∀ c ∈ CHAR_SETS.uppercase, isUpperAscii c = true := by decide

theorem numbers_isDigit : ∀ c ∈ CHAR_SETS.numbers, isDigitAscii c = true := by decide

theorem symbols_isNonAlnum : ∀ c ∈ CHAR_SETS.symbols, isNonAlnumAscii c = true := by decide

/-! Bridges between the boolean regex tests and their propositional
statements. -/

theorem any_lower_iff (pw : List Char) :
    pw.any isLowerAscii = true ↔ ∃ c ∈ pw, 'a' ≤ c ∧ c ≤ 'z' := by
  simp [List.any_eq_true, isLowerAscii]

theorem any_upper_iff (pw : List Char) :
    pw.any isUpperAscii = true ↔ ∃ c ∈ pw, 'A' ≤ c ∧ c ≤ 'Z' := by
  simp [List.any_eq_true, isUpperAscii]

theorem any_digit_iff (pw : List Char) :
    pw.any isDigitAscii = true ↔ ∃ c ∈ pw, '0' ≤ c ∧ c ≤ '9' := by
  simp [List.any_eq_true, isDigitAscii]

theorem any_nonalnum_iff (pw : List Char) :
    pw.any isNonAlnumAscii = true
      ↔ ∃ c ∈ pw, ¬(('a' ≤ c ∧ c ≤ 'z') ∨ ('A' ≤ c ∧ c ≤ 'Z') ∨ ('0' ≤ c ∧ c ≤ '9')) := by
  simp only [List.any_eq_true, isNonAlnumAscii, isLowerAscii, isUpperAscii, isDigitAscii,
    Bool.not_eq_true', Bool.or_eq_false_iff, Bool.and_eq_false_iff, decide_eq_false_iff_not,
    not_le, not_or, not_and_or]
  exact exists_congr fun c => and_congr_right fun _ => by tauto

/-! Claim theorems. -/

/-- C1 counterexample: with lowercase and uppercase enabled and requested
length 1 (a valid configuration by the claim's own definition), the
generated password has length 2, not 1. -/
theorem C1_counterexample :
    (generateSecurePassword cfgLenOne []).1 = Except.ok ['A', 'a']
      ∧ (['A', 'a'] : List Char).length ≠ cfgLenOne.length := by
  refine ⟨rfl, by decide⟩

/-- C1 (amended): for every configuration with at least one class
enabled, the generated password has length `max length (number of
enabled classes)`; in particular it equals the configured length exactly
when the length is at least the number of enabled classes. -/
theorem C1_amended_length (cfg : PasswordSettings) (r : Rand) (h : anyEnabled cfg = true) :
    ∃ out, (generateSecurePassword cfg r).1 = Except.ok out
      ∧ out.length = max cfg.length (enabledCount cfg) :=
  generate_length cfg r h

/-- C1 witness: the amended length law evaluated on a concrete
configuration and stream. -/
theorem C1_witness :
    anyEnabled cfgAll8 = true
      ∧ ∃ out, (generateSecurePassword cfgAll8 [3, 1, 4, 1, 5]).1 = Except.ok out
          ∧ out.length = max cfgAll8.length (enabledCount cfgAll8) :=
  ⟨by decide, C1_amended_length cfgAll8 [3, 1, 4, 1, 5] (by decide)⟩

/-- C2: for every configuration with at least one class enabled and
length at least the number of enabled classes, the generated password
contains at least one character of every enabled class. -/
theorem C2_guaranteed_classes (cfg : PasswordSettings) (r : Rand)
    (h : anyEnabled cfg = true) (_hlen : enabledCount cfg ≤ cfg.length) :
    ∃ out, (generateSecurePassword cfg r).1 = Except.ok out
      ∧ (cfg.includeLowercase = true → ∃ c ∈ out, c ∈ CHAR_SETS.lowercase)
      ∧ (cfg.includeUppercase = true → ∃ c ∈ out, c ∈ CHAR_SETS.uppercase)
      ∧ (cfg.includeNumbers = true → ∃ c ∈ out, c ∈ CHAR_SETS.numbers)
      ∧ (cfg.includeSymbols = true → ∃ c ∈ out, c ∈ CHAR_SETS.symbols) := by
  obtain ⟨out, hok, hperm⟩ := generate_perm cfg r h
  refine ⟨out, hok, ?_, ?_, ?_, ?_⟩ <;> intro hf
  · obtain ⟨x, hx, hmem⟩ := buildPools_lower_mem cfg r hf
    exact ⟨x, hperm.mem_iff.mpr (preShuffle_mem_guar cfg r x hmem), hx⟩
  · obtain ⟨x, hx, hmem⟩ := buildPools_upper_mem cfg r hf
    exact ⟨x, hperm.mem_iff.mpr (preShuffle_mem_guar cfg r x hmem), hx⟩
  · obtain ⟨x, hx, hmem⟩ := buildPools_numbers_mem cfg r hf
    exact ⟨x, hperm.mem_iff.mpr (preShuffle_mem_guar cfg r x hmem), hx⟩
  · obtain ⟨x, hx, hmem⟩ := buildPools_symbols_mem cfg r hf
    exact ⟨x, hperm.mem_iff.mpr (preShuffle_mem_guar cfg r x hmem), hx⟩

/-- C2 witness: the guaranteed-class property evaluated on a concrete
configuration and stream. -/
theorem C2_witness :
    anyEnabled cfgAll12 = true ∧ enabledCount cfgAll12 ≤ cfgAll12.length
      ∧ ∃ out, (generateSecurePassword cfgAll12 [1, 2, 3, 4, 5, 6]).1 = Except.ok out
          ∧ (cfgAll12.includeLowercase = true → ∃ c ∈ out, c ∈ CHAR_SETS.lowercase)
          ∧ (cfgAll12.includeUppercase = true → ∃ c ∈ out, c ∈ CHAR_SETS.uppercase)
          ∧ (cfgAll12.includeNumbers = true → ∃ c ∈ out, c ∈ CHAR_SETS.numbers)
          ∧ (cfgAll12.includeSymbols = true → ∃ c ∈ out, c ∈ CHAR_SETS.symbols) :=
  ⟨by decide, by decide, C2_guaranteed_classes cfgAll12 [1, 2, 3, 4, 5, 6] (by decide) (by decide)⟩

/-- C3: with no class enabled, `generateSecurePassword` fails with the
invalid-configuration error and returns the random stream untouched (no
randomness consumed); with at least one class enabled it returns a
password and never raises that error. -/
theorem C3_invalid_configuration (cfg : PasswordSettings) (r : Rand) :
    (anyEnabled cfg = false →
        generateSecurePassword cfg r
          = (Except.error "Debe seleccionar al menos un tipo de carácter", r))
      ∧ (anyEnabled cfg = true → ∃ out, (generateSecurePassword cfg r).1 = Except.ok out) := by
  refine ⟨generate_none cfg r, fun h => ?_⟩
  obtain ⟨out, hok, _⟩ := generate_perm cfg r h
  exact ⟨out, hok⟩

/-- C3 witness: the error case and the success case evaluated on
concrete configurations and a concrete stream. -/
theorem C3_witness :
    generateSecurePassword cfgNone [5, 6]
        = (Except.error "Debe seleccionar al menos un tipo de carácter", [5, 6])
      ∧ ∃ out, (generateSecurePassword cfgAll8 [5, 6]).1 = Except.ok out :=
  ⟨(C3_invalid_configuration cfgNone [5, 6]).1 (by decide),
    (C3_invalid_configuration cfgAll8 [5, 6]).2 (by decide)⟩

/-- C4 counterexample: with numbers and symbols enabled and requested
length 1, the generated password has length 2: the configuration is
neither rejected nor is the guaranteed set truncated, and the output is
longer than requested. -/
theorem C4_counterexample :
    (generateSecurePassword cfgNumSym []).1 = Except.ok ['!', '0']
      ∧ cfgNumSym.length < (['!', '0'] : List Char).length := by
  refine ⟨rfl, by decide⟩

/-- C4 (amended): when the requested length is smaller than the number
of enabled classes, `generateSecurePassword` neither truncates nor
rejects: it returns the full guaranteed set, a string of length equal to
the number of enabled classes, which exceeds the requested length. -/
theorem C4_amended_overflow (cfg : PasswordSettings) (r : Rand)
    (h : anyEnabled cfg = true) (hlt : cfg.length < enabledCount cfg) :
    ∃ out, (generateSecurePassword cfg r).1 = Except.ok out
      ∧ out.length = enabledCount cfg ∧ cfg.length < out.length := by
  obtain ⟨out, hok, hlen⟩ := generate_length cfg r h
  exact ⟨out, hok, by omega, by omega⟩

/-- C4 witness: the overflow behaviour evaluated on a concrete
configuration and stream. -/
theorem C4_witness :
    anyEnabled cfgNumSym = true ∧ cfgNumSym.length < enabledCount cfgNumSym
      ∧ ∃ out, (generateSecurePassword cfgNumSym [2, 7]).1 = Except.ok out
          ∧ out.length = enabledCount cfgNumSym ∧ cfgNumSym.length < out.length :=
  ⟨by decide, by decide, C4_amended_overflow cfgNumSym [2, 7] (by decide) (by decide)⟩

/-- C5: the shuffle step returns a permutation of its input for every
input array and stream, and consequently the multiset of characters of
the generated password equals the multiset of guaranteed plus fill
characters as they stood before shuffling. -/
theorem C5_shuffle_permutation (a : List Char) (rs : Rand) (cfg : PasswordSettings) (r : Rand) :
    ((shuffleArray a rs).1).Perm a
      ∧ (anyEnabled cfg = true →
          ∃ out, (generateSecurePassword cfg r).1 = Except.ok out
            ∧ (out : Multiset Char) = (preShufflePassword cfg r : Multiset Char)) := by
  refine ⟨shuffleArray_perm a rs, fun h => ?_⟩
  obtain ⟨out, hok, hperm⟩ := generate_perm cfg r h
  exact ⟨out, hok, Multiset.coe_eq_coe.mpr hperm⟩

/-- C5 witness: the permutation property evaluated on a concrete array,
configuration and streams. -/
theorem C5_witness :
    ((shuffleArray ['p', 'q', 'r'] [4, 3]).1).Perm ['p', 'q', 'r']
      ∧ ∃ out, (generateSecurePassword cfgAll8 [9, 8, 7, 6]).1 = Except.ok out
          ∧ (out : Multiset Char) = (preShufflePassword cfgAll8 [9, 8, 7, 6] : Multiset Char) :=
  ⟨(C5_shuffle_permutation ['p', 'q', 'r'] [4, 3] cfgAll8 [9, 8, 7, 6]).1,
    (C5_shuffle_permutation ['p', 'q', 'r'] [4, 3] cfgAll8 [9, 8, 7, 6]).2 (by decide)⟩

/-- C6: the source shuffle coincides with the spec's Fisher-Yates
description (index `i` iterated from the last position down to 1, swap
with a random index in `[0, i]`); the index drawn at step `i` is always
at most `i`, and every index of the inclusive range `[0, i]` - in
particular `i` itself, which the biased `i - 1` variant could never
produce - is attained by some stream. -/
theorem C6_fisher_yates (a : List Char) (r : Rand) (i j : Nat) (rs : Rand) :
    shuffleArray a r = fisherYatesSpec a r
      ∧ (randInt (i + 1) rs).1 ≤ i
      ∧ (j ≤ i → (randInt (i + 1) [j]).1 = j) := by
  refine ⟨shuffleArray_eq_fisherYatesSpec a r, ?_, fun hj => ?_⟩
  · have := randInt_lt (i + 1) rs (Nat.succ_pos i)
    omega
  · show j % (i + 1) = j
    exact Nat.mod_eq_of_lt (by omega)

/-- C6 witness: the Fisher-Yates equivalence and the inclusive upper
bound evaluated at concrete inputs (index 7, drawn value 7). -/
theorem C6_witness :
    shuffleArray ['x', 'y', 'z'] [2, 1] = fisherYatesSpec ['x', 'y', 'z'] [2, 1]
      ∧ (randInt (7 + 1) [9]).1 ≤ 7
      ∧ (randInt (7 + 1) [7]).1 = 7 :=
  ⟨(C6_fisher_yates ['x', 'y', 'z'] [2, 1] 7 7 [9]).1,
    (C6_fisher_yates ['x', 'y', 'z'] [2, 1] 7 7 [9]).2.1,
    (C6_fisher_yates ['x', 'y', 'z'] [2, 1] 7 7 [9]).2.2 (by decide)⟩

/-- C7: the available pool is the concatenation of the enabled class
strings in the canonical order lowercase, uppercase, numbers, symbols,
and every character of the generated password belongs to that pool
(the union of the enabled classes). -/
theorem C7_pool_and_membership (cfg : PasswordSettings) (r : Rand) :
    (buildPools cfg r).1 = canonicalPool cfg
      ∧ (anyEnabled cfg = true →
          ∃ out, (generateSecurePassword cfg r).1 = Except.ok out
            ∧ ∀ c ∈ out, c ∈ canonicalPool cfg) := by
  refine ⟨buildPools_avail cfg r, fun h => ?_⟩
  obtain ⟨out, hok, hperm⟩ := generate_perm cfg r h
  exact ⟨out, hok, fun c hc => preShuffle_sub_pool cfg r h c (hperm.mem_iff.mp hc)⟩

/-- C7 witness: the pool construction and membership evaluated on a
concrete configuration and stream. -/
theorem C7_witness :
    (buildPools cfgAll8 [4, 4, 4]).1 = canonicalPool cfgAll8
      ∧ ∃ out, (generateSecurePassword cfgAll8 [4, 4, 4]).1 = Except.ok out
          ∧ ∀ c ∈ out, c ∈ canonicalPool cfgAll8 :=
  ⟨(C7_pool_and_membership cfgAll8 [4, 4, 4]).1,
    (C7_pool_and_membership cfgAll8 [4, 4, 4]).2 (by decide)⟩

/-- C10: the heap model of `shuffleArray` returns a freshly allocated
array (its handle is the old heap bound, not any existing handle) and
leaves the contents of the argument array unchanged. -/
theorem C10_no_mutation (h : JSHeap) (arg : Nat) (r : Rand) (ha : arg < h.arrays.length) :
    (shuffleArrayHeap h arg r).2.1 = h.arrays.length
      ∧ heapGet (shuffleArrayHeap h arg r).1 arg = heapGet h arg := by
  refine ⟨rfl, ?_⟩
  show heapGet (shuffleArrayHeapLoop ((heapGet ⟨h.arrays ++ [heapGet h arg]⟩ h.arrays.length).length - 1)
    ⟨h.arrays ++ [heapGet h arg]⟩ h.arrays.length r).1 arg = heapGet h arg
  rw [heapLoop_frame _ ⟨h.arrays ++ [heapGet h arg]⟩ h.arrays.length r arg (by omega)]
  exact heapGet_snoc h (heapGet h arg) arg ha

/-- C10 witness: freshness and frame property evaluated on a concrete
heap, handle and stream. -/
theorem C10_witness :
    (shuffleArrayHeap ⟨[['a', 'b', 'c']]⟩ 0 [1, 2]).2.1 = (JSHeap.mk [['a', 'b', 'c']]).arrays.length
      ∧ heapGet (shuffleArrayHeap ⟨[['a', 'b', 'c']]⟩ 0 [1, 2]).1 0
          = heapGet ⟨[['a', 'b', 'c']]⟩ 0 :=
  C10_no_mutation ⟨[['a', 'b', 'c']]⟩ 0 [1, 2] (by decide)

/-- C8: `evaluatePasswordStrength` scores 2 for length at least 12, else
1 for length at least 8, else 0; plus 1 each for containing a lowercase
letter, an uppercase letter, a digit, and a character that is none of
those; the label thresholds are 6, 4 and 2 (the source's literal labels
"Muy fuerte" / "Fuerte" / "Media" / "Débil" are the spec's very strong /
strong / medium / weak); feedback is the length advisory exactly when
the length is below 8; the empty string is accepted with score 0, label
weak and non-empty feedback. -/
theorem C8_strength_evaluator (pw : List Char) :
    (evaluatePasswordStrength pw).score
        = (if 12 ≤ pw.length then 2 else if 8 ≤ pw.length then 1 else 0)
          + (if ∃ c ∈ pw, 'a' ≤ c ∧ c ≤ 'z' then 1 else 0)
          + (if ∃ c ∈ pw, 'A' ≤ c ∧ c ≤ 'Z' then 1 else 0)
          + (if ∃ c ∈ pw, '0' ≤ c ∧ c ≤ '9' then 1 else 0)
          + (if ∃ c ∈ pw, ¬(('a' ≤ c ∧ c ≤ 'z') ∨ ('A' ≤ c ∧ c ≤ 'Z') ∨ ('0' ≤ c ∧ c ≤ '9'))
              then 1 else 0)
      ∧ (evaluatePasswordStrength pw).strength
          = strengthLabelSpec (evaluatePasswordStrength pw).score
      ∧ (evaluatePasswordStrength pw).feedback
          = (if 8 ≤ pw.length then [] else ["Usar al menos 8 caracteres"])
      ∧ evaluatePasswordStrength []
          = { strength := "Débil", score := 0, feedback := ["Usar al menos 8 caracteres"] } := by
  refine ⟨?_, rfl, ?_, by decide⟩
  · simp only [evaluatePasswordStrength, ← any_lower_iff, ← any_upper_iff, ← any_digit_iff,
      ← any_nonalnum_iff, apply_ite Prod.fst]
  · simp only [evaluatePasswordStrength]
    by_cases h12 : 12 ≤ pw.length
    · have h8 : 8 ≤ pw.length := by omega
      simp [h12, h8]
    · by_cases h8 : 8 ≤ pw.length <;> simp [h12, h8]

/-- C9: with all four classes enabled and length at least 12, evaluating
the generated password yields score 6, the top label and empty
feedback. -/
theorem C9_full_config_very_strong (cfg : PasswordSettings) (r : Rand)
    (hL : cfg.includeLowercase = true) (hU : cfg.includeUppercase = true)
    (hN : cfg.includeNumbers = true) (hS : cfg.includeSymbols = true)
    (hlen : 12 ≤ cfg.length) :
    ∃ out, (generateSecurePassword cfg r).1 = Except.ok out
      ∧ evaluatePasswordStrength out
          = { strength := "Muy fuerte", score := 6, feedback := [] } := by
  have hany : anyEnabled cfg = true := by simp [anyEnabled, hU]
  obtain ⟨out, hok, hperm⟩ := generate_perm cfg r hany
  have hcount : enabledCount cfg = 4 := by simp [enabledCount, hL, hU, hN, hS]
  have hlen_out : out.length = cfg.length := by
    have hl := hperm.length_eq
    rw [preShuffle_length] at hl
    omega
  have h12 : 12 ≤ out.length := by omega
  have mlow : out.any isLowerAscii = true := by
    obtain ⟨x, hx, hmem⟩ := buildPools_lower_mem cfg r hL
    exact List.any_eq_true.mpr
      ⟨x, hperm.mem_iff.mpr (preShuffle_mem_guar cfg r x hmem), lower_isLower x hx⟩
  have mup : out.any isUpperAscii = true := by
    obtain ⟨x, hx, hmem⟩ := buildPools_upper_mem cfg r hU
    exact List.any_eq_true.mpr
      ⟨x, hperm.mem_iff.mpr (preShuffle_mem_guar cfg r x hmem), upper_isUpper x hx⟩
  have mdig : out.any isDigitAscii = true := by
    obtain ⟨x, hx, hmem⟩ := buildPools_numbers_mem cfg r hN
    exact List.any_eq_true.mpr
      ⟨x, hperm.mem_iff.mpr (preShuffle_mem_guar cfg r x hmem), numbers_isDigit x hx⟩
  have msym : out.any isNonAlnumAscii = true := by
    obtain ⟨x, hx, hmem⟩ := buildPools_symbols_mem cfg r hS
    exact List.any_eq_true.mpr
      ⟨x, hperm.mem_iff.mpr (preShuffle_mem_guar cfg r x hmem), symbols_isNonAlnum x hx⟩
  refine ⟨out, hok, ?_⟩
  simp [evaluatePasswordStrength, h12, mlow, mup, mdig, msym]

/-- C9 witness: the strongest-score property evaluated on a concrete
all-classes configuration of length 12 and a concrete stream. -/
theorem C9_witness :
    ∃ out, (generateSecurePassword cfgAll12 [0, 1, 2, 3, 4, 5, 6, 7, 8, 9, 10, 11]).1
        = Except.ok out
      ∧ evaluatePasswordStrength out
          = { strength := "Muy fuerte", score := 6, feedback := [] } :=
  C9_full_config_very_strong cfgAll12 [0, 1, 2, 3, 4, 5, 6, 7, 8, 9, 10, 11]
    (by decide) (by decide) (by decide) (by decide) (by decide)
